import Mathlib

/-!
Shallow embedding of the structural block excision tool of the Miya
repository: `cleanup_dashboard.py` (static mode) and
`cleanup_dashboard_final.py` (dynamic mode).

Documents are lists of strings (one per line).  Python exceptions
(the uncaught `IndexError` from an out-of-bounds `lines[start_idx]`)
are modelled by `Option`: a run that raises returns `none`.
-/

namespace Miya

/-- Python substring membership on character lists: does `needle` start
`hay`? -/
def startsWithL : List Char → List Char → Bool
  | [], _ => true
  | _ :: _, [] => false
  | a :: as, b :: bs => a == b && startsWithL as bs

/-- Python `needle in hay` for character lists: `needle` occurs contiguously
somewhere in `hay`. -/
def occursIn (needle : List Char) : List Char → Bool
  | [] => startsWithL needle []
  | c :: cs => startsWithL needle (c :: cs) || occursIn needle cs

/-- Python `pat in hay` on strings (substring containment). -/
def strContains (hay pat : String) : Bool :=
  occursIn pat.data hay.data

/-- Python `s.strip()`: remove whitespace from both ends of a string. -/
def pyStrip (s : String) : String :=
  ⟨((s.data.dropWhile Char.isWhitespace).reverse.dropWhile
      Char.isWhitespace).reverse⟩

/-! ### `cleanup_dashboard.py`, `remove_struct_definition` -/

/-- The transient scan state of `remove_struct_definition`: the running
brace count and the `started` flag. -/
structure ScanState where
  count : Int
  started : Bool
deriving DecidableEq, Repr

/-- One character of the inner loop of `remove_struct_definition`:
`{` increments the count and sets `started`, `}` decrements the count. -/
def scanChar (st : ScanState) (c : Char) : ScanState :=
  if c = '{' then { count := st.count + 1, started := true }
  else if c = '}' then { st with count := st.count - 1 }
  else st

/-- Process one whole line of the document, character by character. -/
def scanLine (st : ScanState) (l : String) : ScanState :=
  l.data.foldl scanChar st

/-- After folding the given lines into the state, is the scan finished:
`started` is set and the brace count is back to zero? -/
def closedAfter (st : ScanState) (ls : List String) : Prop :=
  (ls.foldl scanLine st).started = true ∧ (ls.foldl scanLine st).count = 0

instance (st : ScanState) (ls : List String) : Decidable (closedAfter st ls) :=
  inferInstanceAs (Decidable (And _ _))

/-- The `while i < len(lines)` loop of `remove_struct_definition`,
structurally over the remaining lines; `i` is the current index. -/
def rsdGo : List String → ScanState → Nat → Nat
  | [], _, i => i
  | l :: ls, st, i =>
    let st' := scanLine st l
    if st'.started = true ∧ st'.count = 0 then i + 1
    else rsdGo ls st' (i + 1)

/-- `remove_struct_definition(lines, start_line_num)`: scan forward from
`start`, counting braces; return `i + 1` on the first line after which the
count is balanced and started, else `len(lines)` (or `start` if already
past the end). -/
def remove_struct_definition (lines : List String) (start : Nat) : Nat :=
  rsdGo (lines.drop start) ⟨0, false⟩ start

/-! ### `cleanup_dashboard.py`, `main` (static mode) -/

/-- The console messages of the static-mode `main` that matter to the
claims: a `marked` message per verified target (with the half-open index
range) and a `warning` message per failed verification (with the expected
anchor and the stripped actual content). -/
inductive LogEvent where
  | marked (name : String) (startIdx endIdx : Nat)
  | warning (name : String) (found : String)
deriving DecidableEq, Repr

/-- The static-mode target loop: for each `(struct_name, start_idx)` pair,
index `lines[start_idx]` (an out-of-bounds access models Python's uncaught
`IndexError` as `none`), verify the anchor substring, and on success mark
`range(start_idx, end_idx)` for removal; on mismatch log a warning and
continue. -/
def staticScan (lines : List String) :
    List (String × Nat) → Finset Nat → List LogEvent →
      Option (Finset Nat × List LogEvent)
  | [], acc, log => some (acc, log)
  | t :: ts, acc, log =>
    match lines.get? t.2 with
    | none => none
    | some content =>
      if strContains content t.1 then
        let e := remove_struct_definition lines t.2
        staticScan lines ts (acc ∪ Finset.Ico t.2 e)
          (log ++ [LogEvent.marked t.1 t.2 e])
      else
        staticScan lines ts acc
          (log ++ [LogEvent.warning t.1 (pyStrip content)])

/-- The output pass of the static `main`: write every line whose index is
not in the removal set, in order. -/
def removeMarked (lines : List String) (s : Finset Nat) : List String :=
  (lines.enum.filter (fun p => decide (p.1 ∉ s))).map Prod.snd

/-- The whole static-mode run: build the removal set and log, then filter
the document.  `none` models a run killed by an uncaught `IndexError`. -/
def staticRun (lines : List String) (targets : List (String × Nat)) :
    Option (List String × List LogEvent) :=
  match staticScan lines targets ∅ [] with
  | none => none
  | some (s, log) => some (removeMarked lines s, log)

/-! ### `cleanup_dashboard_final.py` -/

/-- `remove_lines(lines, start_line, end_line)`: drop the 1-indexed
inclusive range, by slicing `lines[:start_line-1] + lines[end_line:]`. -/
def remove_lines (lines : List String) (start_line end_line : Nat) :
    List String :=
  lines.take (start_line - 1) ++ lines.drop end_line

/-- The scan state of the dynamic `main`: the four 1-indexed boundary
variables, each `none` until found. -/
structure DynState where
  orphanedStart : Option Nat
  orphanedEnd : Option Nat
  sidebarStart : Option Nat
  sidebarEnd : Option Nat
deriving DecidableEq, Repr

/-- The inner `for j in range(i, min(i + 10, len(lines)))` lookahead: the
first line within `fuel` lines from index `j` whose stripped content is
exactly the closing brace yields `j + 1` (1-indexed); otherwise `none`. -/
def findCloseAux (lines : List String) : Nat → Nat → Option Nat
  | _, 0 => none
  | j, fuel + 1 =>
    match lines.get? j with
    | none => none
    | some l => if pyStrip l = "\x7d" then some (j + 1)
                else findCloseAux lines (j + 1) fuel

/-- The ten-line lookahead window starting at the marker line `i`. -/
def findCloseInWindow (lines : List String) (i : Nat) : Option Nat :=
  findCloseAux lines i 10

/-- One iteration of the dynamic `main`'s marker scan at line `i`: the four
`if` statements, in source order, each firing only while its variable is
still unset. -/
def dynStep (lines : List String) (st : DynState) (i : Nat) (line : String) :
    DynState :=
  let st1 :=
    if strContains line ("case trend(TrendInsight)") && st.orphanedStart.isNone
    then { st with orphanedStart := some (i + 1) } else st
  let st2 :=
    if st1.orphanedStart.isSome &&
        strContains line ("private static func makeInitials") &&
        st1.orphanedEnd.isNone
    then { st1 with orphanedEnd := findCloseInWindow lines i } else st1
  let st3 :=
    if strContains line ("// MARK: - ACCOUNT SIDEBAR VIEW") &&
        st2.sidebarStart.isNone
    then { st2 with sidebarStart := some (i + 1) } else st2
  if st3.sidebarStart.isSome &&
      strContains line ("fileprivate func initials(from name: String)") &&
      st3.sidebarEnd.isNone
  then { st3 with sidebarEnd := findCloseInWindow lines i } else st3

/-- The whole `for i, line in enumerate(lines)` marker scan. -/
def dynScan (lines : List String) : DynState :=
  lines.enum.foldl (fun st p => dynStep lines st p.1 p.2)
    ⟨none, none, none, none⟩

/-- The dynamic-mode run after the scan: if any of the four boundaries is
unresolved, print an error and return without writing (`none`); otherwise
remove the orphaned range, shift the sidebar end if needed, remove the
sidebar range, and write the result. -/
def dynMain (lines : List String) : Option (List String) :=
  let st := dynScan lines
  match st.orphanedStart, st.orphanedEnd, st.sidebarStart, st.sidebarEnd with
  | some os, some oe, some ss, some se =>
    let lines1 := remove_lines lines os oe
    let removed := oe - os + 1
    let se' := if os < se then se - removed else se
    some (remove_lines lines1 ss se')
  | _, _, _, _ => none

/-! ### Abstract Block Ranges (spec §3) for the range-safety claim -/

/-- The length of an inclusive Block Range. -/
def rangeLen (r : Nat × Nat) : Nat := r.2 + 1 - r.1

/-- The index set of an inclusive Block Range. -/
def rangeSet (r : Nat × Nat) : Finset Nat := Finset.Icc r.1 r.2

/-- The Removal Index Set: the union of the index sets of all resolved
Block Ranges, accumulated left to right as the static `main` does. -/
def removalSet (rs : List (Nat × Nat)) : Finset Nat :=
  rs.foldl (fun s r => s ∪ rangeSet r) ∅

/-! ### Lemmas about the boundary resolver -/

/-- Folding an extra line first is folding from the advanced state. -/
theorem closedAfter_cons (st : ScanState) (l : String) (ls : List String) :
    closedAfter st (l :: ls) ↔ closedAfter (scanLine st l) ls := by
  simp [closedAfter]

/-- If, starting from state `st`, the scan first closes after consuming
`k + 1` lines, the resolver loop stops there and returns `i + k + 1`. -/
theorem rsdGo_closes :
    ∀ (rest : List String) (st : ScanState) (i k : Nat),
      k < rest.length →
      closedAfter st (rest.take (k + 1)) →
      (∀ m, m < k → ¬ closedAfter st (rest.take (m + 1))) →
      rsdGo rest st i = i + k + 1 := by
  intro rest
  induction rest with
  | nil => intro st i k hk _ _; simp at hk
  | cons l ls ih =>
    intro st i k hk hc hmin
    cases k with
    | zero =>
      have hcl : closedAfter st [l] := by simpa using hc
      have hcl' : (scanLine st l).started = true ∧ (scanLine st l).count = 0 := by
        simpa [closedAfter] using hcl
      simp [rsdGo, hcl']
    | succ k' =>
      have h0 : ¬ closedAfter st [l] := by
        have := hmin 0 (Nat.succ_pos k')
        simpa using this
      have h0' : ¬ ((scanLine st l).started = true ∧ (scanLine st l).count = 0) := by
        simpa [closedAfter] using h0
      have hrec : rsdGo ls (scanLine st l) (i + 1) = (i + 1) + k' + 1 := by
        refine ih (scanLine st l) (i + 1) k' (by simpa using hk) ?_ ?_
        · have : closedAfter st (l :: ls.take (k' + 1)) := by
            simpa [List.take] using hc
          exact (closedAfter_cons st l _).mp this
        · intro m hm
          have := hmin (m + 1) (Nat.succ_lt_succ hm)
          intro hcl2
          exact this ((closedAfter_cons st l _).mpr (by simpa [List.take] using hcl2))
      simp only [rsdGo, if_neg h0']
      omega

/-- If the scan never closes on any prefix of the remaining lines, the
resolver loop runs off the end and returns `i + rest.length`. -/
theorem rsdGo_never_closes :
    ∀ (rest : List String) (st : ScanState) (i : Nat),
      (∀ m, m < rest.length → ¬ closedAfter st (rest.take (m + 1))) →
      rsdGo rest st i = i + rest.length := by
  intro rest
  induction rest with
  | nil => intro st i _; simp [rsdGo]
  | cons l ls ih =>
    intro st i hmin
    have h0 : ¬ closedAfter st [l] := by
      have := hmin 0 (Nat.succ_pos _)
      simpa using this
    have h0' : ¬ ((scanLine st l).started = true ∧ (scanLine st l).count = 0) := by
      simpa [closedAfter] using h0
    have hrec : rsdGo ls (scanLine st l) (i + 1) = (i + 1) + ls.length := by
      refine ih (scanLine st l) (i + 1) ?_
      intro m hm
      have := hmin (m + 1) (Nat.succ_lt_succ hm)
      intro hcl2
      exact this ((closedAfter_cons st l _).mpr (by simpa [List.take] using hcl2))
    simp only [rsdGo, if_neg h0', hrec, List.length_cons]
    omega

/-! ### Lemmas about the static-mode target loop -/

/-- A target whose expected index is out of bounds kills the whole run
(the uncaught `IndexError`). -/
theorem staticScan_cons_oob (lines : List String) (name : String) (idx : Nat)
    (ts : List (String × Nat)) (acc : Finset Nat) (log : List LogEvent)
    (h : lines.get? idx = none) :
    staticScan lines ((name, idx) :: ts) acc log = none := by
  rw [List.get?_eq_getElem?] at h
  simp [staticScan, h]

/-- A verified target marks its half-open index range and logs `marked`. -/
theorem staticScan_cons_found (lines : List String) (name : String)
    (idx : Nat) (content : String) (ts : List (String × Nat))
    (acc : Finset Nat) (log : List LogEvent)
    (hget : lines.get? idx = some content)
    (hcont : strContains content name = true) :
    staticScan lines ((name, idx) :: ts) acc log =
      staticScan lines ts
        (acc ∪ Finset.Ico idx (remove_struct_definition lines idx))
        (log ++ [LogEvent.marked name idx (remove_struct_definition lines idx)]) := by
  rw [List.get?_eq_getElem?] at hget
  simp [staticScan, hget, hcont]

/-- A target that fails verification marks nothing, logs a warning naming
the anchor and the stripped actual content, and the loop continues. -/
theorem staticScan_cons_mismatch (lines : List String) (name : String)
    (idx : Nat) (content : String) (ts : List (String × Nat))
    (acc : Finset Nat) (log : List LogEvent)
    (hget : lines.get? idx = some content)
    (hcont : strContains content name = false) :
    staticScan lines ((name, idx) :: ts) acc log =
      staticScan lines ts acc
        (log ++ [LogEvent.warning name (pyStrip content)]) := by
  rw [List.get?_eq_getElem?] at hget
  simp [staticScan, hget, hcont]

/-! ### Lemmas about the output pass -/

/-- Counting a half-open interval filter of a finite set, one step. -/
theorem card_filter_interval_succ (s : Finset Nat) (n m : Nat) :
    (s.filter (fun i => n ≤ i ∧ i < n + (m + 1))).card =
      (if n ∈ s then 1 else 0) +
        (s.filter (fun i => n + 1 ≤ i ∧ i < (n + 1) + m)).card := by
  by_cases hn : n ∈ s
  · have heq : s.filter (fun i => n ≤ i ∧ i < n + (m + 1)) =
        insert n (s.filter (fun i => n + 1 ≤ i ∧ i < (n + 1) + m)) := by
      ext i
      simp only [Finset.mem_filter, Finset.mem_insert]
      constructor
      · rintro ⟨his, h1, h2⟩
        rcases Nat.eq_or_lt_of_le h1 with he | hl
        · exact Or.inl he.symm
        · exact Or.inr ⟨his, by omega, by omega⟩
      · rintro (he | ⟨his, h1, h2⟩)
        · subst he; exact ⟨hn, by omega, by omega⟩
        · exact ⟨his, by omega, by omega⟩
    have hno : n ∉ s.filter (fun i => n + 1 ≤ i ∧ i < (n + 1) + m) := by
      simp only [Finset.mem_filter]
      rintro ⟨-, h1, -⟩
      omega
    rw [heq, Finset.card_insert_of_not_mem hno, if_pos hn]
    omega
  · have heq : s.filter (fun i => n ≤ i ∧ i < n + (m + 1)) =
        s.filter (fun i => n + 1 ≤ i ∧ i < (n + 1) + m) := by
      ext i
      simp only [Finset.mem_filter]
      constructor
      · rintro ⟨his, h1, h2⟩
        have hne : i ≠ n := fun he => hn (he ▸ his)
        exact ⟨his, by omega, by omega⟩
      · rintro ⟨his, h1, h2⟩
        exact ⟨his, by omega, by omega⟩
    rw [heq, if_neg hn]
    omega

/-- The kept lines and the in-window removed indices partition the
document. -/
theorem removeMarked_length_aux (s : Finset Nat) :
    ∀ (l : List String) (n : Nat),
      ((List.enumFrom n l).filter (fun p => decide (p.1 ∉ s))).length +
        (s.filter (fun i => n ≤ i ∧ i < n + l.length)).card = l.length := by
  intro l
  induction l with
  | nil =>
    intro n
    have hz : s.filter (fun i => n ≤ i ∧ i < n) = ∅ := by
      apply Finset.filter_false_of_mem
      intro i _
      omega
    simp [List.enumFrom, hz]
  | cons a l ih =>
    intro n
    have hcard := card_filter_interval_succ s n l.length
    by_cases hn : n ∈ s
    · have hq : decide ((n : Nat) ∉ s) = false := by simp [hn]
      simp only [List.enumFrom, List.filter_cons, hq, Bool.false_eq_true,
        if_false, List.length_cons]
      rw [if_pos hn] at hcard
      have := ih (n + 1)
      omega
    · have hq : decide ((n : Nat) ∉ s) = true := by simp [hn]
      simp only [List.enumFrom, List.filter_cons, hq, if_true,
        List.length_cons]
      rw [if_neg hn] at hcard
      have := ih (n + 1)
      omega

/-- The filtered output has exactly `len - |s|` lines when every marked
index is in bounds. -/
theorem removeMarked_length (lines : List String) (s : Finset Nat)
    (hs : ∀ i ∈ s, i < lines.length) :
    (removeMarked lines s).length = lines.length - s.card := by
  have h := removeMarked_length_aux s lines 0
  have hfix : s.filter (fun i => 0 ≤ i ∧ i < 0 + lines.length) = s := by
    apply Finset.filter_true_of_mem
    intro i hi
    exact ⟨Nat.zero_le i, by simpa using hs i hi⟩
  rw [hfix] at h
  simp only [removeMarked, List.length_map, List.enum]
  omega

/-- Mapping away the indices of an index-annotated list gives it back. -/
theorem enumFrom_map_snd :
    ∀ (n : Nat) (l : List String), (List.enumFrom n l).map Prod.snd = l := by
  intro n l
  induction l generalizing n with
  | nil => simp [List.enumFrom]
  | cons a l ih => simp [List.enumFrom, ih]

/-- Removing an empty index set changes nothing. -/
theorem removeMarked_empty (lines : List String) :
    removeMarked lines ∅ = lines := by
  unfold removeMarked
  have hq : (fun p : Nat × String => decide (p.1 ∉ (∅ : Finset Nat))) =
      fun _ => true := by
    funext p
    simp
  rw [hq, List.filter_true]
  exact enumFrom_map_snd 0 lines

/-- Each line of the document appears, with its index, in the enumerated
document. -/
theorem mem_enumFrom_of_get? :
    ∀ (l : List String) (idx n : Nat) (c : String),
      l.get? idx = some c → (n + idx, c) ∈ List.enumFrom n l := by
  intro l
  induction l with
  | nil => intro idx n c h; simp [List.get?] at h
  | cons a l ih =>
    intro idx n c h
    cases idx with
    | zero =>
      simp only [List.get?] at h
      cases h
      simp [List.enumFrom]
    | succ idx' =>
      have hmem := ih idx' (n + 1) c (by simpa [List.get?] using h)
      have heq : n + (idx' + 1) = (n + 1) + idx' := by omega
      simp only [List.enumFrom, List.mem_cons]
      exact Or.inr (heq ▸ hmem)

/-- A line whose index is not marked for removal survives in the output. -/
theorem removeMarked_mem (lines : List String) (s : Finset Nat) (idx : Nat)
    (c : String) (hget : lines.get? idx = some c) (hns : idx ∉ s) :
    c ∈ removeMarked lines s := by
  unfold removeMarked
  apply List.mem_map.mpr
  refine ⟨(idx, c), ?_, rfl⟩
  apply List.mem_filter.mpr
  constructor
  · have := mem_enumFrom_of_get? lines idx 0 c hget
    simpa [List.enum] using this
  · simpa using hns

/-! ### Lemmas about the Removal Index Set -/

/-- Accumulating ranges from any seed set is seeding the union. -/
theorem removalSet_foldl (rs : List (Nat × Nat)) :
    ∀ s : Finset Nat,
      rs.foldl (fun s r => s ∪ rangeSet r) s = s ∪ removalSet rs := by
  induction rs with
  | nil => intro s; simp [removalSet]
  | cons r rs ih =>
    intro s
    simp only [removalSet, List.foldl_cons] at *
    rw [ih (s ∪ rangeSet r), ih (∅ ∪ rangeSet r)]
    rw [Finset.empty_union, Finset.union_assoc]

/-- Unfolding the Removal Index Set one range at a time. -/
theorem removalSet_cons (r : Nat × Nat) (rs : List (Nat × Nat)) :
    removalSet (r :: rs) = rangeSet r ∪ removalSet rs := by
  simp only [removalSet, List.foldl_cons]
  rw [removalSet_foldl]
  rw [Finset.empty_union]
  rfl

/-- Membership in the Removal Index Set is membership in some range. -/
theorem mem_removalSet (i : Nat) :
    ∀ rs : List (Nat × Nat), i ∈ removalSet rs ↔ ∃ r ∈ rs, i ∈ rangeSet r := by
  intro rs
  induction rs with
  | nil => simp [removalSet]
  | cons r rs ih => simp [removalSet_cons, ih]

/-- A range disjoint from every listed range is disjoint from their
union. -/
theorem disjoint_removalSet (r : Nat × Nat) (rs : List (Nat × Nat))
    (h : ∀ x ∈ rs, Disjoint (rangeSet r) (rangeSet x)) :
    Disjoint (rangeSet r) (removalSet rs) := by
  induction rs with
  | nil => simp [removalSet]
  | cons x rs ih =>
    rw [removalSet_cons, Finset.disjoint_union_right]
    exact ⟨h x (List.mem_cons_self x rs),
      ih fun y hy => h y (List.mem_cons_of_mem x hy)⟩

/-- With pairwise disjoint ranges, the Removal Index Set counts exactly
the sum of the range lengths. -/
theorem removalSet_card (rs : List (Nat × Nat))
    (hd : rs.Pairwise fun a b => Disjoint (rangeSet a) (rangeSet b)) :
    (removalSet rs).card = (rs.map rangeLen).sum := by
  induction rs with
  | nil => simp [removalSet]
  | cons r rs ih =>
    rcases List.pairwise_cons.mp hd with ⟨hr, hrs⟩
    rw [removalSet_cons,
      Finset.card_union_of_disjoint (disjoint_removalSet r rs hr), ih hrs]
    simp [rangeSet, rangeLen, Nat.card_Icc]

/-- The Removal Index Set does not depend on the order of the ranges. -/
theorem removalSet_perm (rs rs' : List (Nat × Nat))
    (h : List.Perm rs' rs) : removalSet rs' = removalSet rs := by
  induction h with
  | nil => rfl
  | cons x _ ih => rw [removalSet_cons, removalSet_cons, ih]
  | swap x y l =>
    rw [removalSet_cons, removalSet_cons, removalSet_cons, removalSet_cons,
      ← Finset.union_assoc, Finset.union_comm (rangeSet y) (rangeSet x),
      Finset.union_assoc]
  | trans _ _ ih1 ih2 => rw [ih1, ih2]

/-! ### Lemmas about the dynamic lookahead window -/

/-- The window search succeeds exactly on the first stripped closing brace
within the window, returning its 1-indexed line number. -/
theorem findCloseAux_some_iff (lines : List String) :
    ∀ (fuel j r : Nat),
      findCloseAux lines j fuel = some r ↔
        ∃ k c, j ≤ k ∧ k < j + fuel ∧ lines.get? k = some c ∧
          pyStrip c = "\x7d" ∧
          (∀ m c', j ≤ m → m < k → lines.get? m = some c' →
            pyStrip c' ≠ "\x7d") ∧
          r = k + 1 := by
  intro fuel
  induction fuel with
  | zero =>
    intro j r
    simp only [findCloseAux]
    constructor
    · intro h; cases h
    · rintro ⟨k, c, h1, h2, -, -, -, -⟩
      omega
  | succ fuel ih =>
    intro j r
    cases hget : lines.get? j with
    | none =>
      simp only [findCloseAux, hget]
      constructor
      · intro h; cases h
      · rintro ⟨k, c, h1, h2, hk, -, -, -⟩
        have hlen : lines.length ≤ j := List.get?_eq_none.mp hget
        have hkn : lines.get? k = none :=
          List.get?_eq_none.mpr (le_trans hlen h1)
        rw [hkn] at hk
        cases hk
    | some l =>
      by_cases hl : pyStrip l = "\x7d"
      · simp only [findCloseAux, hget, if_pos hl]
        constructor
        · intro h
          have hr := Option.some.inj h
          refine ⟨j, l, le_refl j, by omega, hget, hl, ?_, hr.symm⟩
          intro m c' hm1 hm2 _
          omega
        · rintro ⟨k, c, h1, h2, hk, hc, hmin, hr⟩
          rcases Nat.eq_or_lt_of_le h1 with he | hlt
          · subst he
            rw [hget] at hk
            cases hk
            rw [hr]
          · exact absurd hl (hmin j l (le_refl j) hlt hget)
      · simp only [findCloseAux, hget, if_neg hl]
        rw [ih]
        constructor
        · rintro ⟨k, c, h1, h2, hk, hc, hmin, hr⟩
          refine ⟨k, c, by omega, by omega, hk, hc, ?_, hr⟩
          intro m c' hm1 hm2 hm3
          rcases Nat.eq_or_lt_of_le hm1 with he | hlt2
          · subst he
            rw [hget] at hm3
            cases hm3
            exact hl
          · exact hmin m c' hlt2 hm2 hm3
        · rintro ⟨k, c, h1, h2, hk, hc, hmin, hr⟩
          have hkj : k ≠ j := by
            intro he
            subst he
            rw [hget] at hk
            cases hk
            exact hl hc
          refine ⟨k, c, by omega, by omega, hk, hc, ?_, hr⟩
          intro m c' hm1 hm2 hm3
          exact hmin m c' (by omega) hm2 hm3

/-- The window search fails exactly when no line of the window strips to
the closing brace. -/
theorem findCloseAux_none_iff (lines : List String) :
    ∀ (fuel j : Nat),
      findCloseAux lines j fuel = none ↔
        ∀ k c, j ≤ k → k < j + fuel → lines.get? k = some c →
          pyStrip c ≠ "\x7d" := by
  intro fuel
  induction fuel with
  | zero =>
    intro j
    simp only [findCloseAux]
    constructor
    · intro _ k c h1 h2 _
      omega
    · intro _
      trivial
  | succ fuel ih =>
    intro j
    cases hget : lines.get? j with
    | none =>
      simp only [findCloseAux, hget]
      constructor
      · intro _ k c h1 _ hk
        have hlen : lines.length ≤ j := List.get?_eq_none.mp hget
        have hkn : lines.get? k = none :=
          List.get?_eq_none.mpr (le_trans hlen h1)
        rw [hkn] at hk
        cases hk
      · intro _
        trivial
    | some l =>
      by_cases hl : pyStrip l = "\x7d"
      · simp only [findCloseAux, hget, if_pos hl]
        constructor
        · intro h
          cases h
        · intro h
          exact absurd hl (h j l (le_refl j) (by omega) hget)
      · simp only [findCloseAux, hget, if_neg hl]
        rw [ih]
        constructor
        · intro h k c h1 h2 hk
          rcases Nat.eq_or_lt_of_le h1 with he | hlt
          · subst he
            rw [hget] at hk
            cases hk
            exact hl
          · exact h k c hlt (by omega) hk
        · intro h k c h1 h2 hk
          exact h k c (by omega) (by omega) hk

/-- When the orphaned start is known, the orphaned end is still unset and
the line contains the orphaned end marker, the scan step sets the orphaned
end to the result of the ten-line window search. -/
theorem dynStep_orphanedEnd (lines : List String) (st : DynState) (i : Nat)
    (line : String) (hs : st.orphanedStart.isSome = true)
    (he : st.orphanedEnd = none)
    (hm : strContains line ("private static func makeInitials") = true) :
    (dynStep lines st i line).orphanedEnd = findCloseInWindow lines i := by
  have h1 : st.orphanedStart.isNone = false := by
    cases h : st.orphanedStart <;> simp_all
  have h2 : st.orphanedEnd.isNone = true := by simp [he]
  simp only [dynStep, h1, Bool.and_false, Bool.false_eq_true, if_false,
    hs, hm, h2, Bool.and_self, Bool.true_and, Bool.and_true, if_true]
  split_ifs <;> rfl

/-- When the sidebar start is known, the sidebar end is still unset and
the line contains the sidebar end marker, the scan step sets the sidebar
end to the result of the ten-line window search. -/
theorem dynStep_sidebarEnd (lines : List String) (st : DynState) (i : Nat)
    (line : String) (hs : st.sidebarStart.isSome = true)
    (he : st.sidebarEnd = none)
    (hm : strContains line
      ("fileprivate func initials(from name: String)") = true) :
    (dynStep lines st i line).sidebarEnd = findCloseInWindow lines i := by
  have h2 : st.sidebarEnd.isNone = true := by simp [he]
  simp only [dynStep, hs, hm, h2]
  split_ifs <;> simp_all

/-- If any of the four boundaries is unresolved after the scan, the
dynamic run returns before editing or writing anything. -/
theorem dynMain_none (lines : List String)
    (h : (dynScan lines).orphanedStart = none ∨
         (dynScan lines).orphanedEnd = none ∨
         (dynScan lines).sidebarStart = none ∨
         (dynScan lines).sidebarEnd = none) :
    dynMain lines = none := by
  unfold dynMain
  cases h1 : (dynScan lines).orphanedStart <;>
    cases h2 : (dynScan lines).orphanedEnd <;>
      cases h3 : (dynScan lines).sidebarStart <;>
        cases h4 : (dynScan lines).sidebarEnd <;>
          simp_all

/-! ### Claim C1 -/

/-- C1: the claim says the Block Boundary Resolver returns the index of
the block's closing line itself.  On the two-line document whose block
closes on line 1, `remove_struct_definition` returns 2, not 1: it returns
the index of the line after the closing line. -/
theorem C1_counterexample :
    closedAfter ⟨0, false⟩ (["\x7b", "\x7d"].take (1 + 1)) ∧
    (¬ closedAfter ⟨0, false⟩ (["\x7b", "\x7d"].take (0 + 1))) ∧
    remove_struct_definition ["\x7b", "\x7d"] 0 = 2 ∧
    remove_struct_definition ["\x7b", "\x7d"] 0 ≠ 1 :=
  ⟨by decide, by decide, by decide, by decide⟩

/-- C1 (amended): if line `start + k` is the first line after whose
processing the brace scan from `start` is started with depth zero (the
block's closing line), the Block Boundary Resolver returns
`start + k + 1`, the index one past the closing line. -/
theorem C1_resolver_returns_line_after_close (lines : List String)
    (start k : Nat) (hk : start + k < lines.length)
    (hc : closedAfter ⟨0, false⟩ ((lines.drop start).take (k + 1)))
    (hmin : ∀ m, m < k →
      ¬ closedAfter ⟨0, false⟩ ((lines.drop start).take (m + 1))) :
    remove_struct_definition lines start = start + k + 1 := by
  have hlen : k < (lines.drop start).length := by
    rw [List.length_drop]
    omega
  exact rsdGo_closes (lines.drop start) ⟨0, false⟩ start k hlen hc hmin

/-- Concrete instance of the amended C1: a one-line balanced block at
index 0 makes the resolver return 1. -/
theorem C1_resolver_returns_line_after_close_witness :
    0 + 0 < (["\x7b\x7d"] : List String).length ∧
    remove_struct_definition ["\x7b\x7d"] 0 = 0 + 0 + 1 :=
  ⟨by decide,
    C1_resolver_returns_line_after_close ["\x7b\x7d"] 0 0 (by decide)
      (by decide) (fun m hm => absurd hm (Nat.not_lt_zero m))⟩

/-! ### Claim C2 -/

/-- C2: the claim says an unbalanced block is treated as a resolution
failure with no lines removed.  On a two-line document whose block never
closes, the resolver returns end-of-document and the static run removes
both lines, producing an empty output. -/
theorem C2_counterexample :
    (¬ closedAfter ⟨0, false⟩ ["X \x7b"]) ∧
    (¬ closedAfter ⟨0, false⟩ ["X \x7b", "y"]) ∧
    remove_struct_definition ["X \x7b", "y"] 0 = 2 ∧
    staticRun ["X \x7b", "y"] [("X", 0)] =
      some ([], [LogEvent.marked "X" 0 2]) :=
  ⟨by decide, by decide, by decide, by decide⟩

/-- C2 (amended): when the brace scan from a verified target never
returns to a balanced state on any prefix, the resolver returns the
end-of-document index and the caller removes every line from the start
index through end of document; the target is not treated as a failure. -/
theorem C2_unbalanced_removes_to_eof (lines : List String) (name : String)
    (start : Nat) (content : String)
    (hget : lines.get? start = some content)
    (hcont : strContains content name = true)
    (hnc : ∀ m, m < lines.length - start →
      ¬ closedAfter ⟨0, false⟩ ((lines.drop start).take (m + 1))) :
    remove_struct_definition lines start = lines.length ∧
    staticRun lines [(name, start)] =
      some (removeMarked lines (Finset.Ico start lines.length),
        [LogEvent.marked name start lines.length]) := by
  have hstart : start < lines.length := by
    by_contra hge
    rw [List.get?_eq_none.mpr (Nat.le_of_not_lt hge)] at hget
    cases hget
  have hrsd : remove_struct_definition lines start = lines.length := by
    unfold remove_struct_definition
    have hnv := rsdGo_never_closes (lines.drop start) ⟨0, false⟩ start
      (by intro m hm; rw [List.length_drop] at hm; exact hnc m hm)
    rw [hnv, List.length_drop]
    omega
  refine ⟨hrsd, ?_⟩
  have hscan : staticScan lines [(name, start)] ∅ [] =
      some (Finset.Ico start lines.length,
        [LogEvent.marked name start lines.length]) := by
    rw [staticScan_cons_found lines name start content [] ∅ [] hget hcont,
      hrsd]
    simp [staticScan]
  unfold staticRun
  rw [hscan]

/-- Concrete instance of the amended C2: the unbalanced two-line block is
removed whole, through end of document. -/
theorem C2_unbalanced_removes_to_eof_witness :
    remove_struct_definition ["X \x7b", "y"] 0 = 2 ∧
    staticRun ["X \x7b", "y"] [("X", 0)] =
      some (removeMarked ["X \x7b", "y"] (Finset.Ico 0 2),
        [LogEvent.marked "X" 0 2]) :=
  C2_unbalanced_removes_to_eof ["X \x7b", "y"] "X" 0 ("X \x7b")
    (by decide) (by decide)
    (by
      intro m hm
      have hm2 : m < 2 := by simpa using hm
      interval_cases m <;> decide)

/-! ### Claim C9 -/

/-- Any target with an out-of-bounds expected index makes the whole
target loop die (the uncaught `IndexError`), whatever came before it. -/
theorem staticScan_none_of_oob (lines : List String) :
    ∀ (ts : List (String × Nat)) (acc : Finset Nat) (log : List LogEvent),
      (∃ t ∈ ts, lines.length ≤ t.2) →
      staticScan lines ts acc log = none := by
  intro ts
  induction ts with
  | nil =>
    rintro acc log ⟨t, ht, -⟩
    cases ht
  | cons t ts ih =>
    rintro acc log ⟨u, hu, hlen⟩
    rcases List.mem_cons.mp hu with he | hmem
    · rw [he] at hlen
      exact staticScan_cons_oob lines t.1 t.2 ts acc log
        (List.get?_eq_none.mpr hlen)
    · cases hget : lines.get? t.2 with
      | none => exact staticScan_cons_oob lines t.1 t.2 ts acc log hget
      | some content =>
        by_cases hcont : strContains content t.1 = true
        · rw [staticScan_cons_found lines t.1 t.2 content ts acc log hget
            hcont]
          exact ih _ _ ⟨u, hmem, hlen⟩
        · rw [staticScan_cons_mismatch lines t.1 t.2 content ts acc log hget
            (by simpa using hcont)]
          exact ih _ _ ⟨u, hmem, hlen⟩

/-- C9: whenever some target's expected index is at or past the document
length, the static run is killed by the unchecked `lines[start_idx]`
access (modelled as `none`): no mismatch report, no output. -/
theorem C9_oob_index_kills_run (lines : List String)
    (targets : List (String × Nat))
    (h : ∃ t ∈ targets, lines.length ≤ t.2) :
    staticRun lines targets = none := by
  unfold staticRun
  rw [staticScan_none_of_oob lines targets ∅ [] h]

/-- Concrete instance of C9: a target at index 0 of an empty document
kills the run. -/
theorem C9_oob_index_kills_run_witness :
    (∃ t ∈ ([("X", 0)] : List (String × Nat)),
      ([] : List String).length ≤ t.2) ∧
    staticRun [] [("X", 0)] = none :=
  ⟨⟨("X", 0), by decide, by decide⟩,
    C9_oob_index_kills_run [] [("X", 0)] ⟨("X", 0), by decide, by decide⟩⟩

/-! ### Claim C10 -/

/-- C10: `remove_lines` is total slicing: past-the-end indices are
clamped (an end index at or past the document keeps only the prefix, and
if the start is also past the end the document is returned unchanged),
and on an in-bounds 1-indexed inclusive range the result drops exactly
`end_line - start_line + 1` lines. -/
theorem C10_remove_lines_total (lines : List String) (s e : Nat) :
    (lines.length ≤ e → remove_lines lines s e = lines.take (s - 1)) ∧
    (lines.length + 1 ≤ s → lines.length ≤ e →
      remove_lines lines s e = lines) ∧
    (1 ≤ s → s ≤ e → e ≤ lines.length →
      (remove_lines lines s e).length = lines.length - (e - s + 1)) := by
  refine ⟨?_, ?_, ?_⟩
  · intro h1
    unfold remove_lines
    rw [List.drop_eq_nil_of_le h1, List.append_nil]
  · intro h1 h2
    unfold remove_lines
    rw [List.drop_eq_nil_of_le h2, List.append_nil,
      List.take_of_length_le (by omega)]
  · intro h1 h2 h3
    unfold remove_lines
    rw [List.length_append, List.length_take, List.length_drop,
      Nat.min_eq_left (by omega)]
    omega

/-- Concrete instance of C10: removing 1-indexed lines 2 through 2 of a
three-line document leaves two lines. -/
theorem C10_remove_lines_total_witness :
    (1 ≤ 2 ∧ 2 ≤ 2 ∧ 2 ≤ (["a", "b", "c"] : List String).length) ∧
    (remove_lines ["a", "b", "c"] 2 2).length = 3 - (2 - 2 + 1) :=
  ⟨⟨by decide, by decide, by decide⟩,
    (C10_remove_lines_total ["a", "b", "c"] 2 2).2.2 (by decide) (by decide)
      (by decide)⟩

/-! ### Claim C3 -/

/-- C3: the claim also says the mismatched region always appears
unchanged in the output.  Here target B at index 1 mismatches and is
warned about, yet its line "x" is deleted anyway because verified target
A's resolved block covers index 1. -/
theorem C3_counterexample :
    staticRun ["A \x7b", "x", "\x7d"] [("A", 0), ("B", 1)] =
      some ([], [LogEvent.marked "A" 0 3, LogEvent.warning "B" "x"]) ∧
    ("x" ∈ (["A \x7b", "x", "\x7d"] : List String)) ∧
    (¬ ("x" ∈ ([] : List String))) :=
  ⟨by decide, by decide, by decide⟩

/-- C3 (amended): a target whose expected line exists but lacks the
anchor adds no indices to the removal set, logs a warning naming the
anchor and the stripped actual content, and the loop continues with the
remaining targets unchanged; and any line whose index ends up outside the
final removal set appears in the output, so the mismatched region is
unchanged provided no other target's resolved range covers it. -/
theorem C3_mismatch_skips_warns_continues :
    (∀ (lines : List String) (name : String) (idx : Nat) (content : String)
        (ts : List (String × Nat)) (acc : Finset Nat) (log : List LogEvent),
        lines.get? idx = some content →
        strContains content name = false →
        staticScan lines ((name, idx) :: ts) acc log =
          staticScan lines ts acc
            (log ++ [LogEvent.warning name (pyStrip content)])) ∧
    (∀ (lines : List String) (s : Finset Nat) (idx : Nat) (c : String),
        lines.get? idx = some c → idx ∉ s → c ∈ removeMarked lines s) :=
  ⟨fun lines name idx content ts acc log hget hcont =>
      staticScan_cons_mismatch lines name idx content ts acc log hget hcont,
    fun lines s idx c hget hns => removeMarked_mem lines s idx c hget hns⟩

/-- Concrete instance of the amended C3: the mismatched target at index 0
of a one-line document only appends a warning, and the line survives an
empty removal set. -/
theorem C3_mismatch_skips_warns_continues_witness :
    staticScan ["x"] [("B", 0)] ∅ [] =
      staticScan ["x"] [] ∅ ([] ++ [LogEvent.warning "B" "x"]) ∧
    "x" ∈ removeMarked ["x"] ∅ :=
  ⟨C3_mismatch_skips_warns_continues.1 ["x"] "B" 0 "x" [] ∅ [] (by decide)
      (by decide),
    C3_mismatch_skips_warns_continues.2 ["x"] ∅ 0 "x" (by decide)
      (by decide)⟩

/-! ### Claim C6 -/

/-- C6: the claim says a second run on the tool's own output warns for
every target and leaves the document unchanged.  Here the first run
shortens the document below a target's expected index, so the second run
is killed by the unchecked index access instead. -/
theorem C6_counterexample :
    staticRun ["a", "X \x7b", "\x7d"] [("X", 1)] =
      some (["a"], [LogEvent.marked "X" 1 3]) ∧
    staticRun ["a"] [("X", 1)] = none :=
  ⟨by decide, by decide⟩

/-- When every target's expected line exists but fails verification, the
loop marks nothing and logs one warning per target, in order. -/
theorem staticScan_all_mismatch (lines : List String) :
    ∀ (ts : List (String × Nat)) (acc : Finset Nat) (log : List LogEvent),
      (∀ t ∈ ts, ∃ c, lines.get? t.2 = some c ∧ strContains c t.1 = false) →
      staticScan lines ts acc log =
        some (acc, log ++ ts.map (fun t =>
          LogEvent.warning t.1 (pyStrip ((lines.get? t.2).getD "")))) := by
  intro ts
  induction ts with
  | nil =>
    intro acc log _
    simp [staticScan]
  | cons t ts ih =>
    intro acc log h
    obtain ⟨c, hget, hcont⟩ := h t (List.mem_cons_self t ts)
    rw [staticScan_cons_mismatch lines t.1 t.2 c ts acc log hget hcont]
    rw [ih _ _ (fun u hu => h u (List.mem_cons_of_mem t hu))]
    rw [List.get?_eq_getElem?] at hget
    simp [hget, List.append_assoc]

/-- C6 (amended): provided every target's expected index is still in
bounds of the document it is rerun on, and no expected line contains its
anchor, the run reports a warning for every target, in order, and
returns the document unchanged. -/
theorem C6_rerun_warns_and_leaves_unchanged (lines : List String)
    (targets : List (String × Nat))
    (h : ∀ t ∈ targets, ∃ c, lines.get? t.2 = some c ∧
      strContains c t.1 = false) :
    staticRun lines targets =
      some (lines, targets.map (fun t =>
        LogEvent.warning t.1 (pyStrip ((lines.get? t.2).getD "")))) := by
  unfold staticRun
  rw [staticScan_all_mismatch lines targets ∅ [] h]
  simp [removeMarked_empty]

/-- Concrete instance of the amended C6: rerunning over a one-line
document without the anchor warns and changes nothing. -/
theorem C6_rerun_warns_and_leaves_unchanged_witness :
    staticRun ["a"] [("X", 0)] =
      some (["a"], [LogEvent.warning "X" "a"]) :=
  C6_rerun_warns_and_leaves_unchanged ["a"] [("X", 0)]
    (fun t ht => by
      have heq : t = ("X", 0) := by simpa using ht
      subst heq
      exact ⟨"a", rfl, by decide⟩)

/-! ### Claim C7 -/

/-- C7: the claim says overlapping resolved ranges are surfaced as a
resolver bug.  Here the two resolved ranges overlap, yet the run
proceeds, logs only the two per-target marked messages, merges the
ranges in the shared index set and writes the merged deletion: the
union's size is smaller than the sum of the range sizes. -/
theorem C7_counterexample :
    staticRun ["A \x7b", "B \x7b", "\x7d", "\x7d"] [("A", 0), ("B", 1)] =
      some ([], [LogEvent.marked "A" 0 4, LogEvent.marked "B" 1 3]) ∧
    ((Finset.Ico 0 4 ∩ Finset.Ico 1 3).Nonempty) ∧
    (Finset.Ico 0 4 ∪ Finset.Ico (1 : Nat) 3).card ≠ (4 - 0) + (3 - 1) :=
  ⟨by decide, by decide, by decide⟩

/-- C7 (amended): for any two verified targets — overlapping or not —
the run takes the union of the two resolved ranges in one shared index
set, logs only the two marked messages and proceeds to write the
filtered output; no overlap check or report exists. -/
theorem C7_overlap_silently_merged (lines : List String) (n1 n2 : String)
    (i1 i2 : Nat) (c1 c2 : String)
    (h1 : lines.get? i1 = some c1) (hc1 : strContains c1 n1 = true)
    (h2 : lines.get? i2 = some c2) (hc2 : strContains c2 n2 = true) :
    staticRun lines [(n1, i1), (n2, i2)] =
      some (removeMarked lines
          (Finset.Ico i1 (remove_struct_definition lines i1) ∪
            Finset.Ico i2 (remove_struct_definition lines i2)),
        [LogEvent.marked n1 i1 (remove_struct_definition lines i1),
          LogEvent.marked n2 i2 (remove_struct_definition lines i2)]) := by
  unfold staticRun
  rw [staticScan_cons_found lines n1 i1 c1 _ ∅ [] h1 hc1,
    staticScan_cons_found lines n2 i2 c2 [] _ _ h2 hc2]
  simp [staticScan, Finset.empty_union]

/-- Concrete instance of the amended C7 on the overlapping document. -/
theorem C7_overlap_silently_merged_witness :
    staticRun ["A \x7b", "B \x7b", "\x7d", "\x7d"] [("A", 0), ("B", 1)] =
      some (removeMarked ["A \x7b", "B \x7b", "\x7d", "\x7d"]
          (Finset.Ico 0
              (remove_struct_definition ["A \x7b", "B \x7b", "\x7d", "\x7d"] 0) ∪
            Finset.Ico 1
              (remove_struct_definition ["A \x7b", "B \x7b", "\x7d", "\x7d"] 1)),
        [LogEvent.marked "A" 0
            (remove_struct_definition ["A \x7b", "B \x7b", "\x7d", "\x7d"] 0),
          LogEvent.marked "B" 1
            (remove_struct_definition ["A \x7b", "B \x7b", "\x7d", "\x7d"] 1)]) :=
  C7_overlap_silently_merged ["A \x7b", "B \x7b", "\x7d", "\x7d"] "A" "B" 0 1
    ("A \x7b") ("B \x7b") (by decide) (by decide) (by decide) (by decide)

/-! ### Claim C4 -/

/-- C4: in dynamic mode, if any of the four boundaries — either start
marker, either end marker's closing line within its lookahead window —
is unresolved after the scan, the run aborts before any edit: no output
is produced at all. -/
theorem C4_dynamic_all_or_nothing (lines : List String)
    (h : (dynScan lines).orphanedStart = none ∨
         (dynScan lines).orphanedEnd = none ∨
         (dynScan lines).sidebarStart = none ∨
         (dynScan lines).sidebarEnd = none) :
    dynMain lines = none :=
  dynMain_none lines h

/-- Concrete instance of C4: a document with no markers resolves nothing
and produces no output. -/
theorem C4_dynamic_all_or_nothing_witness :
    (dynScan ["x"]).orphanedStart = none ∧ dynMain ["x"] = none :=
  ⟨by decide, C4_dynamic_all_or_nothing ["x"] (Or.inl (by decide))⟩

/-! ### Claim C5 -/

/-- C5: for pairwise disjoint in-bounds inclusive ranges, the Removal
Index Set counts exactly the sum of the range lengths, the filtered
output has exactly the original length minus that sum, and the set — and
hence the removal — is independent of the order of the ranges. -/
theorem C5_range_safety (lines : List String) (rs : List (Nat × Nat))
    (hb : ∀ r ∈ rs, r.1 ≤ r.2 ∧ r.2 < lines.length)
    (hd : rs.Pairwise fun a b => Disjoint (rangeSet a) (rangeSet b)) :
    (removalSet rs).card = (rs.map rangeLen).sum ∧
    (removeMarked lines (removalSet rs)).length =
      lines.length - (rs.map rangeLen).sum ∧
    (∀ rs', List.Perm rs' rs → removalSet rs' = removalSet rs) := by
  have hcard := removalSet_card rs hd
  refine ⟨hcard, ?_, fun rs' hp => removalSet_perm rs rs' hp⟩
  have hbound : ∀ i ∈ removalSet rs, i < lines.length := by
    intro i hi
    obtain ⟨r, hr, hir⟩ := (mem_removalSet i rs).mp hi
    have hbr := hb r hr
    unfold rangeSet at hir
    rw [Finset.mem_Icc] at hir
    omega
  rw [removeMarked_length lines (removalSet rs) hbound, hcard]

/-- Concrete instance of C5: two disjoint ranges of a five-line document
remove three lines, leaving two. -/
theorem C5_range_safety_witness :
    ((removalSet [(0, 1), (3, 3)]).card =
      (([(0, 1), (3, 3)] : List (Nat × Nat)).map rangeLen).sum) ∧
    ((removeMarked ["a", "b", "c", "d", "e"]
        (removalSet [(0, 1), (3, 3)])).length =
      (["a", "b", "c", "d", "e"] : List String).length -
        (([(0, 1), (3, 3)] : List (Nat × Nat)).map rangeLen).sum) :=
  ⟨(C5_range_safety ["a", "b", "c", "d", "e"] [(0, 1), (3, 3)] (by decide)
      (by decide)).1,
    (C5_range_safety ["a", "b", "c", "d", "e"] [(0, 1), (3, 3)] (by decide)
      (by decide)).2.1⟩

/-! ### Claim C8 -/

/-- C8: in dynamic mode each section end, when its marker line is
reached with the section start known and the end still unset, is set by
searching the ten-line window starting at the marker line for the first
line whose stripped content is exactly the closing brace, yielding that
line's 1-indexed number; if no window line qualifies, the end stays
unresolved. -/
theorem C8_lookahead_window (lines : List String) (st : DynState) (i : Nat)
    (line : String) :
    (st.orphanedStart.isSome = true → st.orphanedEnd = none →
      strContains line ("private static func makeInitials") = true →
      (dynStep lines st i line).orphanedEnd = findCloseInWindow lines i) ∧
    (st.sidebarStart.isSome = true → st.sidebarEnd = none →
      strContains line ("fileprivate func initials(from name: String)") =
        true →
      (dynStep lines st i line).sidebarEnd = findCloseInWindow lines i) ∧
    (∀ r, findCloseInWindow lines i = some r ↔
      ∃ k c, i ≤ k ∧ k < i + 10 ∧ lines.get? k = some c ∧
        pyStrip c = "\x7d" ∧
        (∀ m c', i ≤ m → m < k → lines.get? m = some c' →
          pyStrip c' ≠ "\x7d") ∧
        r = k + 1) ∧
    (findCloseInWindow lines i = none ↔
      ∀ k c, i ≤ k → k < i + 10 → lines.get? k = some c →
        pyStrip c ≠ "\x7d") :=
  ⟨fun hs he hm => dynStep_orphanedEnd lines st i line hs he hm,
    fun hs he hm => dynStep_sidebarEnd lines st i line hs he hm,
    fun r => findCloseAux_some_iff lines 10 i r,
    findCloseAux_none_iff lines 10 i⟩

/-- Concrete instance of C8: with the orphaned start known and the marker
on line 0, the closing brace on line 1 resolves the orphaned end to the
1-indexed value 2. -/
theorem C8_lookahead_window_witness :
    (dynStep ["a", "\x7d"] ⟨some 1, none, none, none⟩ 0
      ("private static func makeInitials x")).orphanedEnd = some 2 := by
  have h := C8_lookahead_window ["a", "\x7d"] ⟨some 1, none, none, none⟩ 0
    ("private static func makeInitials x")
  rw [h.1 (by decide) rfl (by decide)]
  decide

end Miya
